import Mathlib

/-!
Verification of the domain-decomposition driver (examples/ex3p_dd.cpp) and the
shifted-boundary Neumann solver (miniapps/shifted_methods/neumann.cpp).

The pure index arithmetic and the attribute-setting / element-classification
loops are embedded directly from the C++ sources.  The classes declared in
ddmesh.hpp / ddoper.hpp (SubdomainInterface, SubdomainParMeshGenerator,
DDMInterfaceOperator) are repository code whose implementation is not
available here; those parts are modelled from the specification, as flagged
in the individual doc comments.
-/

namespace Ex3pDD

/-- Global interface index of a subdomain pair, as in the source comment
`globalIndex = (numSubdomains * sd0) + sd1` (ex3p_dd.cpp line 561). -/
def interfaceGlobalIndex (numSubdomains sd0 sd1 : Nat) : Nat :=
  numSubdomains * sd0 + sd1

/-- Decoding of the first subdomain id from a global interface index, as in
`const int sd0 = interfaceGI[i] / numSubdomains` (ex3p_dd.cpp line 561). -/
def decodeSd0 (numSubdomains g : Nat) : Nat := g / numSubdomains

/-- Decoding of the second subdomain id from a global interface index, as in
`const int sd1 = interfaceGI[i] - (numSubdomains * sd0)` (ex3p_dd.cpp line 562). -/
def decodeSd1 (numSubdomains g : Nat) : Nat :=
  g - numSubdomains * decodeSd0 numSubdomains g

theorem decodeSd0_encode (N s0 s1 : Nat) (h1 : s1 < N) :
    decodeSd0 N (interfaceGlobalIndex N s0 s1) = s0 := by
  unfold decodeSd0 interfaceGlobalIndex
  have hN : 0 < N := Nat.pos_of_ne_zero (by omega)
  rw [Nat.mul_add_div hN, Nat.div_eq_of_lt h1]
  omega

theorem decodeSd1_encode (N s0 s1 : Nat) (h1 : s1 < N) :
    decodeSd1 N (interfaceGlobalIndex N s0 s1) = s1 := by
  unfold decodeSd1
  rw [decodeSd0_encode N s0 s1 h1]
  unfold interfaceGlobalIndex
  omega

/-- C1: encoding a subdomain pair `(sd0, sd1)` with `sd0 < sd1 < numSubdomains`
as `g = sd0*numSubdomains + sd1` and decoding `g` by integer division and
subtraction recovers exactly the original pair. -/
theorem interface_index_roundtrip (N s0 s1 : Nat) (h01 : s0 < s1) (h1 : s1 < N) :
    decodeSd0 N (interfaceGlobalIndex N s0 s1) = s0 ∧
    decodeSd1 N (interfaceGlobalIndex N s0 s1) = s1 :=
  ⟨decodeSd0_encode N s0 s1 h1, decodeSd1_encode N s0 s1 h1⟩

/-- Witness for C1 at the concrete pair `(1, 3)` with 5 subdomains. -/
theorem interface_index_roundtrip_witness :
    (1 < 3 ∧ 3 < 5) ∧
    (decodeSd0 5 (interfaceGlobalIndex 5 1 3) = 1 ∧
     decodeSd1 5 (interfaceGlobalIndex 5 1 3) = 3) :=
  ⟨⟨by decide, by decide⟩, interface_index_roundtrip 5 1 3 (by decide) (by decide)⟩

/-- The partition loop of ex3p_dd.cpp lines 427-434: for every element `i` of
the serial mesh, `mesh->SetAttribute(i, subdomain[i]+1)`.  The mesh attribute
table is embedded as a function `Nat → Nat`, updated once per element by a
left fold over the element indices, starting from the attributes `attr0`
carried by the mesh file. -/
def setSubdomainAttributes (ne : Nat) (subdomain : Nat → Nat) (attr0 : Nat → Nat) :
    Nat → Nat :=
  (List.range ne).foldl
    (fun attrs i => fun j => if j = i then subdomain i + 1 else attrs j) attr0

theorem setSubdomainAttributes_succ (ne : Nat) (subdomain attr0 : Nat → Nat) :
    setSubdomainAttributes (ne + 1) subdomain attr0 =
      fun j => if j = ne then subdomain ne + 1
               else setSubdomainAttributes ne subdomain attr0 j := by
  unfold setSubdomainAttributes
  rw [List.range_succ, List.foldl_append]
  rfl

theorem setSubdomainAttributes_eq (ne : Nat) (subdomain attr0 : Nat → Nat) (j : Nat) :
    setSubdomainAttributes ne subdomain attr0 j =
      if j < ne then subdomain j + 1 else attr0 j := by
  induction ne with
  | zero => simp [setSubdomainAttributes]
  | succ n ih =>
    rw [setSubdomainAttributes_succ]
    by_cases h : j = n
    · subst h
      simp
    · simp only [if_neg h, ih]
      have hiff : j < n ↔ j < n + 1 := by omega
      by_cases hlt : j < n
      · rw [if_pos hlt, if_pos (hiff.mp hlt)]
      · rw [if_neg hlt, if_neg (fun hc => hlt (by omega))]

/-- The set of elements assigned to subdomain `s` by the partition map. -/
def elementsOfSubdomain (ne : Nat) (subdomain : Nat → Nat) (s : Nat) : Finset Nat :=
  (Finset.range ne).filter (fun i => subdomain i = s)

/-- C2: after the partitioning step every element `i` of the global mesh
carries the attribute `subdomain[i]+1`, every element belongs to exactly one
subdomain, the union of all subdomains' element sets is the full element set,
and distinct subdomains' element sets are disjoint.  The partition map itself
(`CartesianPartitioning`, not under src/) is an arbitrary total map with range
`[0, numSubdomains)` per the external-partitioner contract of the spec. -/
theorem partition_coverage (ne nsd : Nat) (subdomain attr0 : Nat → Nat)
    (hrange : ∀ i, i < ne → subdomain i < nsd) :
    (∀ i, i < ne → setSubdomainAttributes ne subdomain attr0 i = subdomain i + 1) ∧
    (∀ i, i < ne → ∃! s, s < nsd ∧ i ∈ elementsOfSubdomain ne subdomain s) ∧
    ((Finset.range nsd).biUnion (fun s => elementsOfSubdomain ne subdomain s) =
      Finset.range ne) ∧
    (∀ s t, s ≠ t →
      Disjoint (elementsOfSubdomain ne subdomain s) (elementsOfSubdomain ne subdomain t)) := by
  refine ⟨fun i hi => ?_, fun i hi => ?_, ?_, fun s t hst => ?_⟩
  · rw [setSubdomainAttributes_eq, if_pos hi]
  · refine ⟨subdomain i, ⟨hrange i hi, ?_⟩, fun y hy => ?_⟩
    · simp [elementsOfSubdomain, Finset.mem_filter, Finset.mem_range, hi]
    · have := hy.2
      simp only [elementsOfSubdomain, Finset.mem_filter] at this
      exact this.2.symm
  · ext i
    simp only [Finset.mem_biUnion, Finset.mem_range, elementsOfSubdomain,
      Finset.mem_filter]
    constructor
    · rintro ⟨s, _, hmem, _⟩
      exact hmem
    · intro hi
      exact ⟨subdomain i, hrange i hi, hi, rfl⟩
  · rw [Finset.disjoint_left]
    intro i his hit
    simp only [elementsOfSubdomain, Finset.mem_filter] at his hit
    exact hst (his.2 ▸ hit.2)

/-- Witness for C2: four elements, two subdomains, partition map `i % 2`. -/
theorem partition_coverage_witness :
    (∀ i, i < 4 → i % 2 < 2) ∧
    ((∀ i, i < 4 →
        setSubdomainAttributes 4 (fun i => i % 2) (fun _ => 0) i = i % 2 + 1) ∧
     (∀ i, i < 4 → ∃! s, s < 2 ∧ i ∈ elementsOfSubdomain 4 (fun i => i % 2) s) ∧
     ((Finset.range 2).biUnion (fun s => elementsOfSubdomain 4 (fun i => i % 2) s) =
       Finset.range 4) ∧
     (∀ s t, s ≠ t →
       Disjoint (elementsOfSubdomain 4 (fun i => i % 2) s)
         (elementsOfSubdomain 4 (fun i => i % 2) t))) :=
  ⟨by decide, partition_coverage 4 2 (fun i => i % 2) (fun _ => 0) (by decide)⟩

/-- C9: the partition loop destructively overwrites every element's mesh
attribute: for every element `i` the final attribute is `subdomain[i]+1`, and
the result does not depend on the attribute values `attr0` originally carried
by the mesh file. -/
theorem partition_overwrites_attributes (ne : Nat) (subdomain attr0 attr0' : Nat → Nat)
    (i : Nat) (hi : i < ne) :
    setSubdomainAttributes ne subdomain attr0 i = subdomain i + 1 ∧
    setSubdomainAttributes ne subdomain attr0 i =
      setSubdomainAttributes ne subdomain attr0' i := by
  constructor
  · rw [setSubdomainAttributes_eq, if_pos hi]
  · rw [setSubdomainAttributes_eq, setSubdomainAttributes_eq, if_pos hi, if_pos hi]

/-- Witness for C9: element 1 of 2, with two different initial attribute
tables (constant 7 and constant 9), ends with attribute `subdomain[1]+1`
either way. -/
theorem partition_overwrites_attributes_witness :
    (1 < 2) ∧
    (setSubdomainAttributes 2 (fun i => i) (fun _ => 7) 1 = 1 + 1 ∧
     setSubdomainAttributes 2 (fun i => i) (fun _ => 7) 1 =
       setSubdomainAttributes 2 (fun i => i) (fun _ => 9) 1) :=
  ⟨by decide,
   partition_overwrites_attributes 2 (fun i => i) (fun _ => 7) (fun _ => 9) 1 (by decide)⟩

/-- Modelled from the spec: the class `SubdomainInterface` of ddmesh.hpp is
not under src/.  Per the data model, an interface has identity `(sd0, sd1)`
with `sd0 < sd1`, a set of shared faces, and a single global index
`g = sd0*numSubdomains + sd1`. -/
structure SubdomainInterface where
  sd0 : Nat
  sd1 : Nat
  faces : List Nat
  globalIndex : Nat
deriving DecidableEq, Repr

/-- The empty-interface construction of ex3p_dd.cpp lines 561-564: the pair is
decoded from the stored global index `interfaceGI[i]`, an interface with no
faces is built from it, and `SetGlobalIndex(numSubdomains)` (modelled from the
spec: ddmesh.hpp is not under src/) recomputes the deterministic global index
from the pair. -/
def emptyInterfaceAt (numSubdomains gi : Nat) : SubdomainInterface :=
  let s0 := decodeSd0 numSubdomains gi
  let s1 := decodeSd1 numSubdomains gi
  { sd0 := s0, sd1 := s1, faces := [],
    globalIndex := interfaceGlobalIndex numSubdomains s0 s1 }

/-- Modelled from the spec: `SubdomainParMeshGenerator::CreateParallelInterfaceMesh`
of ddmesh.hpp is not under src/.  Per §4.3 it builds, for an interface, a
distributed mesh of the interface's shared faces, and a degenerate interface
with zero faces still yields a well-formed zero-face mesh object rather than
a failure or a null object (hence the `Option` result is always `some`). -/
def createParallelInterfaceMesh (ifc : SubdomainInterface) :
    Option (List Nat) :=
  some ifc.faces

/-- C5: for a global interface index with no locally-realized instance, the
branch of ex3p_dd.cpp lines 558-566 builds an empty interface object whose
`(sd0, sd1)` identity is correctly decoded from the stored global index, and
a well-formed zero-face interface mesh is produced from it rather than a
failure or a null object. -/
theorem empty_interface_wellformed (N s0 s1 : Nat) (h01 : s0 < s1) (h1 : s1 < N) :
    (emptyInterfaceAt N (interfaceGlobalIndex N s0 s1)).sd0 = s0 ∧
    (emptyInterfaceAt N (interfaceGlobalIndex N s0 s1)).sd1 = s1 ∧
    (emptyInterfaceAt N (interfaceGlobalIndex N s0 s1)).faces = [] ∧
    createParallelInterfaceMesh (emptyInterfaceAt N (interfaceGlobalIndex N s0 s1)) =
      some [] := by
  have h0 := decodeSd0_encode N s0 s1 h1
  have h2 := decodeSd1_encode N s0 s1 h1
  refine ⟨?_, ?_, rfl, ?_⟩
  · simp [emptyInterfaceAt, h0]
  · simp [emptyInterfaceAt, h2]
  · simp [createParallelInterfaceMesh, emptyInterfaceAt]

/-- Witness for C5 at the pair `(0, 1)` with 2 subdomains. -/
theorem empty_interface_wellformed_witness :
    (0 < 1 ∧ 1 < 2) ∧
    ((emptyInterfaceAt 2 (interfaceGlobalIndex 2 0 1)).sd0 = 0 ∧
     (emptyInterfaceAt 2 (interfaceGlobalIndex 2 0 1)).sd1 = 1 ∧
     (emptyInterfaceAt 2 (interfaceGlobalIndex 2 0 1)).faces = [] ∧
     createParallelInterfaceMesh (emptyInterfaceAt 2 (interfaceGlobalIndex 2 0 1)) =
       some []) :=
  ⟨⟨by decide, by decide⟩,
   empty_interface_wellformed 2 0 1 (by decide) (by decide)⟩

/-- Modelled from the spec: the globally agreed list `interfaceGI` produced by
`SubdomainInterfaceGenerator::GlobalToLocalInterfaceMap` of ddmesh.hpp (not
under src/).  Per §4.1, each process reports the interface indices it
realizes locally; viewed from one process, the agreed enumeration is the list
of distinct global indices of the local interfaces. -/
def interfaceGIList (ifcs : List SubdomainInterface) : List Nat :=
  (ifcs.map (fun ifc => ifc.globalIndex)).dedup

/-- Modelled from the spec: the local entry of the global-to-local interface
map for a realized global index — the position of the first local interface
whose own global index equals it (`none` when the index is unrealized,
standing for the sentinel `-1`). -/
def firstLocalIndex (gi : Nat) : List SubdomainInterface → Option Nat
  | [] => none
  | ifc :: rest =>
      if ifc.globalIndex = gi then some 0
      else (firstLocalIndex gi rest).map (fun k => k + 1)

theorem firstLocalIndex_finds (gi : Nat) (ifcs : List SubdomainInterface)
    (ifc : SubdomainInterface) (hmem : ifc ∈ ifcs) (hgi : ifc.globalIndex = gi) :
    ∃ k x, firstLocalIndex gi ifcs = some k ∧ ifcs.get? k = some x ∧
      x.globalIndex = gi := by
  induction ifcs with
  | nil => cases hmem
  | cons hd tl ih =>
    by_cases hhd : hd.globalIndex = gi
    · exact ⟨0, hd, by simp [firstLocalIndex, hhd], rfl, hhd⟩
    · have htl : ifc ∈ tl := by
        cases hmem with
        | head => exact absurd hgi hhd
        | tail _ h => exact h
      obtain ⟨k, x, hk, hx, hxgi⟩ := ih htl
      exact ⟨k + 1, x, by simp [firstLocalIndex, hhd, hk], by simpa using hx, hxgi⟩

/-- C6: for every entry of the globally agreed enumeration that is realized
locally, the agreed index value `interfaceGI[i]` equals the local interface
object's own global index, so the `MFEM_VERIFY` of ex3p_dd.cpp line 555 holds
under the builder's contract. -/
theorem interface_enumeration_consistent (ifcs : List SubdomainInterface)
    (i : Nat) (hi : i < (interfaceGIList ifcs).length) :
    ∃ k ifc, firstLocalIndex ((interfaceGIList ifcs).get ⟨i, hi⟩) ifcs = some k ∧
      ifcs.get? k = some ifc ∧
      ifc.globalIndex = (interfaceGIList ifcs).get ⟨i, hi⟩ := by
  set gi := (interfaceGIList ifcs).get ⟨i, hi⟩ with hgi
  have hmem : gi ∈ interfaceGIList ifcs := List.get_mem _ i hi
  have hmem2 : gi ∈ ifcs.map (fun ifc => ifc.globalIndex) := by
    simpa [interfaceGIList, List.mem_dedup] using hmem
  obtain ⟨ifc, hifc, hifcgi⟩ := List.mem_map.mp hmem2
  obtain ⟨k, x, hk, hx, hxgi⟩ := firstLocalIndex_finds gi ifcs ifc hifc hifcgi
  exact ⟨k, x, hk, hx, hxgi⟩

/-- Witness for C6: one local interface `(0, 1)` with global index 1 among 2
subdomains; the agreed enumeration entry 0 matches it. -/
theorem interface_enumeration_consistent_witness :
    (0 < (interfaceGIList [⟨0, 1, [4, 7], 1⟩]).length) ∧
    (∃ k ifc,
      firstLocalIndex
          ((interfaceGIList [⟨0, 1, [4, 7], 1⟩]).get ⟨0, by decide⟩)
          [⟨0, 1, [4, 7], 1⟩] = some k ∧
      [(⟨0, 1, [4, 7], 1⟩ : SubdomainInterface)].get? k = some ifc ∧
      ifc.globalIndex =
        (interfaceGIList [⟨0, 1, [4, 7], 1⟩]).get ⟨0, by decide⟩) :=
  ⟨by decide, interface_enumeration_consistent [⟨0, 1, [4, 7], 1⟩] 0 (by decide)⟩

/-- Matrix-vector product of a rectangular array of rationals, the abstract
linear-operator capability `{height, width, apply}` of the spec's §6. -/
def matVec {m n : Nat} (M : Fin m → Fin n → ℚ) (v : Fin n → ℚ) : Fin m → ℚ :=
  fun i => Finset.univ.sum (fun j => M i j * v j)

theorem matVec_zero {m n : Nat} (M : Fin m → Fin n → ℚ) :
    matVec M (fun _ => 0) = fun _ => 0 := by
  funext i
  simp [matVec]

theorem matVec_comb {m n : Nat} (M : Fin m → Fin n → ℚ) (a b : ℚ)
    (x y : Fin n → ℚ) :
    matVec M (fun j => a * x j + b * y j) =
      fun i => a * matVec M x i + b * matVec M y i := by
  funext i
  simp only [matVec, mul_add, Finset.sum_add_distrib, Finset.mul_sum]
  congr 1
  · exact Finset.sum_congr rfl (fun j _ => by ring)
  · exact Finset.sum_congr rfl (fun j _ => by ring)

/-- Modelled from the spec: the class `DDMInterfaceOperator` of ddoper.hpp is
not under src/.  Per §4.4 and §4.5 its application is a composition of fixed
linear maps: gather trace data and convert it to Robin boundary data
(`robinMap`), solve each subdomain's local boundary-value problem (the
black-box linear `localSolve`), and combine the adjacent subdomains' local
solutions into outgoing traces (`transmissionMap`); the reduced source runs
the same machinery driven by the real and imaginary parts of the global
right-hand side (`sourceGather`, `sourceGatherIm`); the recovery performs one
more local-solve pass from the traces (`recoverMap`), falling back to the
caller-supplied prior guess on the regions not touched by the decomposition
(`touched`).  `nT` is the concatenated trace size, `nL` the local-solve size,
`nG` the global discretization size. -/
structure DDMInterfaceOperator (nT nL nG : Nat) where
  robinMap : Fin nL → Fin nT → ℚ
  localSolve : Fin nL → Fin nL → ℚ
  transmissionMap : Fin nT → Fin nL → ℚ
  sourceGather : Fin nL → Fin nG → ℚ
  sourceGatherIm : Fin nL → Fin nG → ℚ
  recoverMap : Fin nG → Fin nL → ℚ
  touched : Fin nG → Bool

/-- Modelled from the spec: `DDMInterfaceOperator::Mult` (the operator
application `y = Apply(x)` consumed by the Krylov solver), one optimized-
Schwarz transmission step: Robin conversion, local solves, transmission
combine. -/
def DDMInterfaceOperator.Mult {nT nL nG : Nat} (op : DDMInterfaceOperator nT nL nG)
    (x : Fin nT → ℚ) : Fin nT → ℚ :=
  matVec op.transmissionMap (matVec op.localSolve (matVec op.robinMap x))

/-- Modelled from the spec: `DDMInterfaceOperator::GetReducedSource` maps the
global right-hand side (real and imaginary parts, as in the call of
ex3p_dd.cpp line 912) to the interface-sized right-hand side via one pass of
the same local-solve machinery. -/
def DDMInterfaceOperator.GetReducedSource {nT nL nG : Nat}
    (op : DDMInterfaceOperator nT nL nG) (B BIm : Fin nG → ℚ) : Fin nT → ℚ :=
  matVec op.transmissionMap (matVec op.localSolve
    (fun l => matVec op.sourceGather B l + matVec op.sourceGatherIm BIm l))

/-- Modelled from the spec: `DDMInterfaceOperator::RecoverDomainSolution`
performs one more local-solve pass driven by the interface traces and
reassembles the global field, falling back to the prior guess in regions not
touched by the decomposition. -/
def DDMInterfaceOperator.RecoverDomainSolution {nT nL nG : Nat}
    (op : DDMInterfaceOperator nT nL nG) (xdd : Fin nT → ℚ) (prior : Fin nG → ℚ) :
    Fin nG → ℚ :=
  fun g =>
    if op.touched g then
      matVec op.recoverMap (matVec op.localSolve (matVec op.robinMap xdd)) g
    else prior g

/-- C3: the interface operator and the reduction map preserve zero:
`Apply(0) = 0` and `GetReducedSource(0) = 0` (an all-zero reduced vector of
the interface trace-space size `nT`). -/
theorem zero_preservation {nT nL nG : Nat} (op : DDMInterfaceOperator nT nL nG) :
    op.Mult (fun _ => 0) = (fun _ => 0) ∧
    op.GetReducedSource (fun _ => 0) (fun _ => 0) = (fun _ => 0) := by
  constructor
  · unfold DDMInterfaceOperator.Mult
    rw [matVec_zero, matVec_zero, matVec_zero]
  · unfold DDMInterfaceOperator.GetReducedSource
    have h : (fun l => matVec op.sourceGather (fun _ => 0) l +
        matVec op.sourceGatherIm (fun _ => 0) l) = (fun _ : Fin nL => (0 : ℚ)) := by
      rw [matVec_zero, matVec_zero]
      funext l
      simp
    rw [h, matVec_zero, matVec_zero]

/-- C4: the interface operator's application is linear: for all trace vectors
`x, y` of the operator's width and all scalars `a, b`,
`Apply(a·x + b·y) = a·Apply(x) + b·Apply(y)` (exactly, in the idealized
rational arithmetic of the embedding). -/
theorem mult_linear {nT nL nG : Nat} (op : DDMInterfaceOperator nT nL nG)
    (a b : ℚ) (x y : Fin nT → ℚ) :
    op.Mult (fun j => a * x j + b * y j) =
      fun j => a * op.Mult x j + b * op.Mult y j := by
  unfold DDMInterfaceOperator.Mult
  rw [matVec_comb, matVec_comb, matVec_comb]

/-- Modelled from the spec: the Krylov driver contract
`solve(operator, rhs, tol, maxIter, restartDim) -> (solution, converged,
iterations)` of §6. -/
structure KrylovResult (n : Nat) where
  solution : Fin n → ℚ
  converged : Bool
  iterationCount : Nat

/-- The solve block of ex3p_dd.cpp lines 954-994: `xdd` starts at zero, the
GMRES solver (a black box per the spec's §6) produces the interface solution,
and `RecoverDomainSolution` is invoked on it unconditionally — there is no
branch on the solver's convergence status. -/
def ddSolveBlock {nT nL nG : Nat} (op : DDMInterfaceOperator nT nL nG)
    (gmres : (Fin nT → ℚ) → (Fin nT → ℚ) → KrylovResult nT)
    (Bdd : Fin nT → ℚ) (priorX : Fin nG → ℚ) : Fin nG → ℚ :=
  let res := gmres Bdd (fun _ => 0)
  op.RecoverDomainSolution res.solution priorX

/-- C7: when the outer GMRES iteration does not converge the run does not
abort: the best available approximate interface solution returned by the
solver is still passed unconditionally to `RecoverDomainSolution`. -/
theorem nonconvergence_still_recovered {nT nL nG : Nat}
    (op : DDMInterfaceOperator nT nL nG)
    (gmres : (Fin nT → ℚ) → (Fin nT → ℚ) → KrylovResult nT)
    (Bdd : Fin nT → ℚ) (priorX : Fin nG → ℚ)
    (hnc : (gmres Bdd (fun _ => 0)).converged = false) :
    ddSolveBlock op gmres Bdd priorX =
      op.RecoverDomainSolution (gmres Bdd (fun _ => 0)).solution priorX := rfl

/-- A concrete 1x1x1 interface operator used by the witnesses. -/
def opOneExample : DDMInterfaceOperator 1 1 1 :=
  { robinMap := fun _ _ => 1, localSolve := fun _ _ => 1,
    transmissionMap := fun _ _ => 1, sourceGather := fun _ _ => 1,
    sourceGatherIm := fun _ _ => 1, recoverMap := fun _ _ => 1,
    touched := fun _ => true }

/-- A GMRES stub that reports non-convergence after 100 iterations. -/
def gmresStubExample : (Fin 1 → ℚ) → (Fin 1 → ℚ) → KrylovResult 1 :=
  fun _ _ => { solution := fun _ => 5, converged := false, iterationCount := 100 }

/-- Witness for C7: with the non-converged GMRES stub, the solve block still
hands the approximate solution to the recovery. -/
theorem nonconvergence_still_recovered_witness :
    ((gmresStubExample (fun _ => 1) (fun _ => 0)).converged = false) ∧
    (ddSolveBlock opOneExample gmresStubExample (fun _ => 1) (fun _ => 2) =
      opOneExample.RecoverDomainSolution
        (gmresStubExample (fun _ => 1) (fun _ => 0)).solution (fun _ => 2)) :=
  ⟨rfl,
   nonconvergence_still_recovered opOneExample gmresStubExample
     (fun _ => 1) (fun _ => 2) rfl⟩

/-- Modelled from the spec: a local subdomain mesh produced by
`SubdomainParMeshGenerator` of ddmesh.hpp (not under src/), reduced to the
list of global element indices it is built from (per §4.2, exactly the
elements tagged with the subdomain's id). -/
structure SubdomainMesh where
  elements : List Nat
deriving DecidableEq, Repr

/-- Modelled from the spec:
`SubdomainParMeshGenerator::CreateParallelSubdomainMeshes` of ddmesh.hpp is
not under src/.  Per §4.2 it builds, for every subdomain id, an independent
mesh of exactly that subdomain's elements; a process owning zero elements of
a subdomain still gets a syntactically valid zero-size mesh, never a null
object (hence the `Option` result is always `some`). -/
def createParallelSubdomainMeshes (nsd ne : Nat) (subdomain : Nat → Nat) :
    Option (List SubdomainMesh) :=
  some ((List.range nsd).map
    (fun s => { elements := (List.range ne).filter (fun i => subdomain i == s) }))

/-- The driver's null check of ex3p_dd.cpp lines 544-545:
`if (pmeshSD == NULL) return 2;` — exit code 2 on a null array, 0 otherwise. -/
def driverMeshCheck (r : Option (List SubdomainMesh)) : Nat :=
  match r with
  | none => 2
  | some _ => 0

/-- C8: `CreateParallelSubdomainMeshes` returns a valid array with one mesh
per subdomain id, each holding exactly the elements tagged with that id
(possibly none), so the driver's null-check branch returning exit code 2 is
unreachable. -/
theorem subdomain_meshes_nonnull (nsd ne : Nat) (subdomain : Nat → Nat) :
    ∃ ms, createParallelSubdomainMeshes nsd ne subdomain = some ms ∧
      ms.length = nsd ∧
      (∀ s, s < nsd → ms.get? s =
        some { elements := (List.range ne).filter (fun i => subdomain i == s) }) ∧
      driverMeshCheck (createParallelSubdomainMeshes nsd ne subdomain) ≠ 2 := by
  refine ⟨_, rfl, by simp, fun s hs => ?_, by simp [createParallelSubdomainMeshes,
    driverMeshCheck]⟩
  rw [List.get?_map, List.get?_range hs]
  rfl

end Ex3pDD

namespace Neumann

/-- The per-element count of level-set quadrature values that are `<= 0`, as
in the loop of neumann.cpp lines 171-176. -/
def countOutside (vals : List ℚ) : Nat :=
  (vals.filter (fun v => decide (v ≤ 0))).length

/-- The element classification of neumann.cpp lines 158-188: the marker
starts at 0, becomes 1 when every quadrature value is `<= 0` (completely
outside) and 2 when some but not all are (partially outside). -/
def classifyElement (vals : List ℚ) : Nat :=
  if countOutside vals = vals.length then 1
  else if 0 < countOutside vals then 2
  else 0

theorem countOutside_le_length (vals : List ℚ) :
    countOutside vals ≤ vals.length :=
  List.length_filter_le _ vals

theorem countOutside_cons (v : ℚ) (vs : List ℚ) :
    countOutside (v :: vs) = (if v ≤ 0 then 1 else 0) + countOutside vs := by
  unfold countOutside
  by_cases hv : v ≤ 0
  · simp [List.filter_cons, hv, Nat.add_comm]
  · simp [List.filter_cons, hv]

theorem countOutside_eq_length_iff (vals : List ℚ) :
    countOutside vals = vals.length ↔ ∀ v ∈ vals, v ≤ 0 := by
  induction vals with
  | nil => simp [countOutside]
  | cons v vs ih =>
    have hle := countOutside_le_length vs
    rw [countOutside_cons]
    by_cases hv : v ≤ 0
    · simp only [if_pos hv, List.length_cons, List.mem_cons]
      constructor
      · intro h w hw
        rcases hw with rfl | hw
        · exact hv
        · exact (ih.mp (by omega)) w hw
      · intro h
        have := ih.mpr (fun w hw => h w (Or.inr hw))
        omega
    · simp only [if_neg hv, List.length_cons]
      constructor
      · intro h
        omega
      · intro h
        exact absurd (h v (List.mem_cons_self v vs)) hv

theorem countOutside_pos_iff (vals : List ℚ) :
    0 < countOutside vals ↔ ∃ v ∈ vals, v ≤ 0 := by
  unfold countOutside
  rw [List.length_pos]
  constructor
  · intro h
    obtain ⟨v, hv⟩ := List.exists_mem_of_ne_nil _ h
    have := List.mem_filter.mp hv
    exact ⟨v, this.1, of_decide_eq_true this.2⟩
  · rintro ⟨v, hmem, hv⟩ hc
    have : v ∈ List.filter (fun v => decide (v ≤ 0)) vals :=
      List.mem_filter.mpr ⟨hmem, decide_eq_true hv⟩
    rw [hc] at this
    cases this

/-- C10: the element classification of the shifted-boundary solver is a total
trichotomy: the marker is exactly one of 0, 1, 2 — 1 iff the level-set values
at all quadrature points of the element are `<= 0` (completely outside),
2 iff at least one but not all such values are `<= 0` (partially outside),
and 0 otherwise, i.e. iff no quadrature value is `<= 0` (completely inside),
for a nonempty quadrature rule. -/
theorem elem_marker_trichotomy (vals : List ℚ) (hne : vals ≠ []) :
    (classifyElement vals = 0 ∨ classifyElement vals = 1 ∨
      classifyElement vals = 2) ∧
    (classifyElement vals = 1 ↔ ∀ v ∈ vals, v ≤ 0) ∧
    (classifyElement vals = 2 ↔
      ((∃ v ∈ vals, v ≤ 0) ∧ ¬ (∀ v ∈ vals, v ≤ 0))) ∧
    (classifyElement vals = 0 ↔ ∀ v ∈ vals, ¬ (v ≤ 0)) := by
  have hlenpos : 0 < vals.length := List.length_pos.mpr hne
  unfold classifyElement
  by_cases hall : countOutside vals = vals.length
  · rw [if_pos hall]
    have hv : ∀ v ∈ vals, v ≤ 0 := (countOutside_eq_length_iff vals).mp hall
    obtain ⟨w, hwm⟩ := List.exists_mem_of_ne_nil _ hne
    refine ⟨Or.inr (Or.inl rfl), iff_of_true rfl hv,
      iff_of_false (by decide) (fun h => h.2 hv),
      iff_of_false (by decide) (fun h => h w hwm (hv w hwm))⟩
  · rw [if_neg hall]
    by_cases hpos : 0 < countOutside vals
    · rw [if_pos hpos]
      have hex : ∃ v ∈ vals, v ≤ 0 := (countOutside_pos_iff vals).mp hpos
      have hnall : ¬ ∀ v ∈ vals, v ≤ 0 :=
        fun h => hall ((countOutside_eq_length_iff vals).mpr h)
      refine ⟨Or.inr (Or.inr rfl), iff_of_false (by decide) hnall,
        iff_of_true rfl ⟨hex, hnall⟩, iff_of_false (by decide) ?_⟩
      intro h
      obtain ⟨v, hvm, hv⟩ := hex
      exact h v hvm hv
    · rw [if_neg hpos]
      have hnone : ∀ v ∈ vals, ¬ (v ≤ 0) := by
        intro v hvm hv
        exact hpos ((countOutside_pos_iff vals).mpr ⟨v, hvm, hv⟩)
      obtain ⟨w, hwm⟩ := List.exists_mem_of_ne_nil _ hne
      refine ⟨Or.inl rfl,
        iff_of_false (by decide) (fun h => hnone w hwm (h w hwm)), ?_,
        iff_of_true rfl hnone⟩
      refine iff_of_false (by decide) ?_
      rintro ⟨⟨v, hvm, hv⟩, -⟩
      exact hnone v hvm hv

/-- Witness for C10 on the values `[-1, 1]`: one value outside, one inside,
so the marker is 2 (partially outside). -/
theorem elem_marker_trichotomy_witness :
    (([(-1 : ℚ), 1] : List ℚ) ≠ []) ∧
    ((classifyElement [(-1 : ℚ), 1] = 0 ∨ classifyElement [(-1 : ℚ), 1] = 1 ∨
       classifyElement [(-1 : ℚ), 1] = 2) ∧
     (classifyElement [(-1 : ℚ), 1] = 1 ↔ ∀ v ∈ ([(-1 : ℚ), 1] : List ℚ), v ≤ 0) ∧
     (classifyElement [(-1 : ℚ), 1] = 2 ↔
       ((∃ v ∈ ([(-1 : ℚ), 1] : List ℚ), v ≤ 0) ∧
        ¬ (∀ v ∈ ([(-1 : ℚ), 1] : List ℚ), v ≤ 0))) ∧
     (classifyElement [(-1 : ℚ), 1] = 0 ↔
       ∀ v ∈ ([(-1 : ℚ), 1] : List ℚ), ¬ (v ≤ 0))) :=
  ⟨by simp, elem_marker_trichotomy [(-1 : ℚ), 1] (by simp)⟩

end Neumann
